import Mathlib

/-!
# Hubcoin application driver

A shallow embedding of `app/app.go` (package `app`) of the hubcoin repository:
the ABCI driver `Hubcoin` with its committed state, its validation state
(`cacheState`), the plugin registry and the lifecycle calls
`Info`, `SetOption`, `DeliverTx`, `CheckTx`, `Query`, `Commit`, `InitChain`,
`BeginBlock`, `EndBlock`, together with the helper `splitKey`.

Conventions of the embedding.

* A Go `string` is a Lean `String`, a Go `[]byte` is a `List UInt8`.
* A Go panic is the `error` side of `Except Panic`; a call that cannot panic
  returns its value directly.
* A method that mutates the receiver returns the receiver afterwards.
* The packages `state` and `types` of the repository and the libraries
  `abci`, `go-wire`, `merkleeyes` are not part of the sources at hand.  What
  the driver calls from them is either modelled (each such definition says so
  in its doc comment) or taken as a field of `Env`, over which every theorem
  quantifies.
-/

set_option autoImplicit false

namespace HubApp

/-! ## Go values -/

/-- Go byte slice. -/
abbrev Bytes := List UInt8

/-- Go conversion of a string to a byte slice: the UTF-8 bytes of the string. -/
def bytesOfString (s : String) : Bytes :=
  s.data.flatMap String.utf8EncodeChar

/-- Go run-time panics met in the driver: the call does not return. -/
inductive Panic where
  | nilDereference
  | indexOutOfRange
  | duplicatePlugin (name : String)
  | sanity (msg : String)
  deriving DecidableEq, Repr

/-! ## Go standard library: package strings -/

/-- Go strings.Index on character lists: position of the first occurrence of
sep in s, none when there is no occurrence (Go returns -1). -/
def stringsIndex : List Char → List Char → Option Nat
  | [], sep => if sep.isPrefixOf [] then some 0 else none
  | c :: t, sep =>
    if sep.isPrefixOf (c :: t) then some 0
    else (stringsIndex t sep).map (· + 1)

/-- Go strings.Contains(s, substr): Index(s, substr) >= 0. -/
def stringsContains (s substr : String) : Bool :=
  (stringsIndex s.data substr.data).isSome

/-- Loop of Go genSplit for a non-empty separator: cut at most fuel times at
the first occurrence of sep, the rest of the string is the last piece. -/
def splitLoop (sep : List Char) : Nat → List Char → List String
  | 0, s => [String.mk s]
  | fuel + 1, s =>
    match stringsIndex s sep with
    | none => [String.mk s]
    | some m => String.mk (s.take m) :: splitLoop sep fuel (s.drop (m + sep.length))

/-- Go strings.SplitN(s, sep, n) for a non-empty separator and n ≥ 0:
n = 0 gives no piece, otherwise at most n pieces (n is capped by
len(s) + 1), the last one being the unsplit remainder. -/
def stringsSplitN (s sep : String) (n : Nat) : List String :=
  if n = 0 then []
  else
    let n := if n > s.data.length + 1 then s.data.length + 1 else n
    splitLoop sep.data (n - 1) s.data

/-! ## Library abci: results and codes -/

/-- Type abci.CodeType, a protobuf enumeration over int32. -/
abbrev CodeType := Int

def CodeType_OK : CodeType := 0

def CodeType_InternalError : CodeType := 1

def CodeType_EncodingError : CodeType := 2

def CodeType_BaseEncodingError : CodeType := 102

/-- Type abci.Result. -/
structure Result where
  Code : CodeType
  Data : Bytes
  Log : String
  deriving DecidableEq, Repr

/-- Method Result.IsErr: the code is not OK. -/
def Result.IsErr (res : Result) : Bool :=
  decide (res.Code ≠ CodeType_OK)

/-- Method Result.IsOK: the code is OK. -/
def Result.IsOK (res : Result) : Bool :=
  decide (res.Code = CodeType_OK)

/-- Method Result.PrependLog: same code and data, log preceded by the given
text and a semicolon. -/
def Result.PrependLog (res : Result) (log : String) : Result :=
  { Code := res.Code, Data := res.Data, Log := log ++ ";" ++ res.Log }

/-- Method Result.AppendLog: same code and data, log followed by a semicolon
and the given text. -/
def Result.AppendLog (res : Result) (log : String) : Result :=
  { Code := res.Code, Data := res.Data, Log := res.Log ++ ";" ++ log }

/-- Value abci.OK. -/
def OK : Result :=
  { Code := CodeType_OK, Data := [], Log := "" }

/-- Value abci.ErrBaseEncodingError. -/
def ErrBaseEncodingError : Result :=
  { Code := CodeType_BaseEncodingError, Data := [], Log := "Error (base) encoding error" }

/-- Type abci.Validator. -/
structure Validator where
  PubKey : Bytes
  Power : Nat
  deriving DecidableEq, Repr

/-- Type abci.ResponseInfo (the field the driver fills). -/
structure ResponseInfo where
  Data : String
  deriving DecidableEq, Repr

/-- Type abci.ResponseEndBlock. -/
structure ResponseEndBlock where
  Diffs : List Validator
  deriving DecidableEq, Repr

/-- Type abci.RequestQuery. -/
structure RequestQuery where
  Data : Bytes
  Path : String
  Height : Nat
  Prove : Bool
  deriving DecidableEq, Repr

/-- Type abci.ResponseQuery. -/
structure ResponseQuery where
  Code : CodeType
  Index : Int
  Key : Bytes
  Value : Bytes
  Proof : Bytes
  Height : Nat
  Log : String
  deriving DecidableEq, Repr

/-- Zero value of abci.ResponseQuery, the initial value of a named result. -/
def ResponseQuery.zero : ResponseQuery :=
  { Code := 0, Index := 0, Key := [], Value := [], Proof := [], Height := 0, Log := "" }

/-! ## Constants of app.go -/

def version : String := "0.1"

def maxTxSize : Nat := 10240

def PluginNameBase : String := "hub"

/-! ## State snapshots (package state) -/

/-- Modelled from the spec: the type sm.State of package state is missing
from the sources.  A State Snapshot supports get/set of opaque keyed byte
values.  The committed snapshot holds its keyed values; a cache-wrapped
snapshot holds the writes buffered in it and refers to its parent.  The only
cache-wrapped snapshot the driver keeps is cacheState, whose parent is the
driver's state, so the reference to the parent is the position in the record
Hubcoin and a child stores its buffered writes only.  Latest write first. -/
structure State where
  kv : List (Bytes × Bytes)
  deriving DecidableEq, Repr

/-- Modelled from the spec: get on a snapshot without parent (sm.State.Get is
missing from the sources): the latest value written under the key. -/
def State.Get (s : State) (key : Bytes) : Option Bytes :=
  s.kv.lookup key

/-- Modelled from the spec: set on a snapshot (sm.State.Set is missing from
the sources): the write is recorded in this snapshot only. -/
def State.Set (s : State) (key value : Bytes) : State :=
  { kv := (key, value) :: s.kv }

/-- Modelled from the spec: cacheWrap(parent) → child (sm.State.CacheWrap is
missing from the sources) produces a child snapshot whose reads fall through
to parent on miss and whose writes are buffered only in the child.  A fresh
child has nothing buffered. -/
def State.CacheWrap (_parent : State) : State :=
  { kv := [] }

/-- Modelled from the spec: get on a cache-wrapped snapshot: the value
buffered in the child, on miss the read falls through to the parent. -/
def State.GetThrough (child parent : State) (key : Bytes) : Option Bytes :=
  match child.Get key with
  | some v => some v
  | none => parent.Get key

/-- Modelled from the spec: sm.NewState(eyesCli) is missing from the sources:
the committed snapshot over the persistent store, here the store's keyed
values. -/
def NewState (eyesCli : List (Bytes × Bytes)) : State :=
  { kv := eyesCli }

/-- Modelled from the spec: code that is handed a snapshot (sm.ExecTx and the
plugin callbacks, all missing from the sources) acts on it through the
snapshot's get/set capability and returns a value.  A Prog is such a piece of
code, one that terminates: its reads, its writes and its result, each
depending on what was read before.  The event sink passed to sm.ExecTx is nil
in both calls of the driver and is left out, as is logging. -/
inductive Prog (α : Type) where
  | ret (a : α)
  | get (key : Bytes) (cont : Option Bytes → Prog α)
  | set (key value : Bytes) (cont : Prog α)

/-- Run code against a snapshot without parent (the committed state). -/
def Prog.runOn {α : Type} : Prog α → State → α × State
  | .ret a, s => (a, s)
  | .get key cont, s => (cont (s.Get key)).runOn s
  | .set key value cont, s => cont.runOn (s.Set key value)

/-- Run code against a cache-wrapped child of parent: reads fall through,
writes stay in the child.  Returns the child afterwards. -/
def Prog.runWrapped {α : Type} (parent : State) : Prog α → State → α × State
  | .ret a, c => (a, c)
  | .get key cont, c => (cont (c.GetThrough parent key)).runWrapped parent c
  | .set key value cont, c => cont.runWrapped parent (c.Set key value)

/-- Run code against a nil snapshot pointer: the first access dereferences
nil and panics; code that never touches the snapshot returns. -/
def Prog.runNil {α : Type} : Prog α → Except Panic α
  | .ret a => .ok a
  | .get _ _ => .error .nilDereference
  | .set _ _ _ => .error .nilDereference

/-! ## Plugins (package types) -/

/-- The types of the repository and its libraries that the driver only
passes along: types.Tx, types.Account, abci.Header. -/
structure Types where
  Tx : Type
  Account : Type
  Header : Type

/-- Modelled from the spec: the interface types.Plugin is missing from the
sources.  A named extension with the capabilities configure, on-chain-init,
on-block-begin and on-block-end, each run against the state it is handed
(the execute capability is reached through sm.ExecTx only). -/
structure Plugin (T : Types) where
  Name : String
  SetOption : String → String → Prog String
  InitChain : List Validator → Prog Unit
  BeginBlock : Bytes → T.Header → Prog Unit
  EndBlock : Nat → Prog ResponseEndBlock

/-- Modelled from the spec: the registry types.Plugins is missing from the
sources: the registered plugins in registration order. -/
structure Plugins (T : Types) where
  plist : List (Plugin T)

/-- Modelled from the spec: types.NewPlugins is missing from the sources: the
registry without plugins. -/
def NewPlugins (T : Types) : Plugins T :=
  { plist := [] }

/-- Modelled from the spec: lookup by name (types.Plugins.GetByName is
missing from the sources), nil when no plugin has the name. -/
def Plugins.GetByName {T : Types} (pgz : Plugins T) (name : String) : Option (Plugin T) :=
  pgz.plist.find? (fun p => p.Name == name)

/-- Modelled from the spec: the plugins in registration order
(types.Plugins.GetList is missing from the sources). -/
def Plugins.GetList {T : Types} (pgz : Plugins T) : List (Plugin T) :=
  pgz.plist

/-- Modelled from the spec: register(plugin) fails with a duplicate-name
condition if the name is already taken (types.Plugins.RegisterPlugin is
missing from the sources); otherwise the plugin is last in the order. -/
def Plugins.RegisterPlugin {T : Types} (pgz : Plugins T) (plugin : Plugin T) :
    Except Panic (Plugins T) :=
  match pgz.GetByName plugin.Name with
  | some _ => .error (.duplicatePlugin plugin.Name)
  | none => .ok { plist := pgz.plist ++ [plugin] }

/-! ## What the driver calls outside app.go -/

/-- The functions the driver calls whose code is not at hand.  The theorems
quantify over every Env; the claim on atomic rejection is about the Envs
whose ExecTx follows the spec (Env.withExecTx below). -/
structure Env (T : Types) where
  /-- Call wire.ReadBinaryBytes(txBytes, &tx): the transaction, or the text
  of the decoding error. -/
  ReadBinaryBytes : Bytes → Except String T.Tx
  /-- Call sm.ExecTx(state, plugins, tx, isCheckTx, nil): the code run against
  the snapshot passed as state. -/
  ExecTx : Plugins T → T.Tx → Bool → Prog Result
  /-- Call state.Commit(): the store's result and the state afterwards. -/
  StateCommit : State → Result × State
  /-- Call state.SetChainID(value): the state afterwards. -/
  SetChainID : State → String → State
  /-- Call wire.ReadJSONPtr(&acc, value, &err): the account pointer (possibly
  nil), or the text of the error. -/
  ReadJSONPtr : String → Except String (Option T.Account)
  /-- Call acc.PubKey.Address(). -/
  Address : T.Account → Bytes
  /-- Call state.SetAccount(addr, acc): the state afterwards. -/
  SetAccount : State → Bytes → T.Account → State
  /-- Call res.Error(): the result formatted as text. -/
  ResultError : Result → String
  /-- Call eyesCli.QuerySync(reqQuery): the response and the error, if any. -/
  QuerySync : RequestQuery → ResponseQuery × Option String

/-! ## Transaction execution as the spec describes it (package state) -/

/-- Emit the given writes, first of the list first, then go on with the
rest of the code. -/
def Prog.writeAll {α : Type} : List (Bytes × Bytes) → Prog α → Prog α
  | [], p => p
  | (key, value) :: rest, p => .set key value (Prog.writeAll rest p)

/-- Modelled from the spec: the body of sm.ExecTx is missing from the sources.
Spec 4.4, step 4: no partial effects are retained on failure (the snapshot in
use must not have been mutated, or must be discarded/rolled back, on any
failure path); spec 4.1: writes of a child are buffered only in the child,
commit(child) flushes them into the parent, discard(child) drops them.  The
executed ledger or plugin code runs against a nested cache-wrap of the
snapshot handed to ExecTx: buf holds the writes buffered in the child so far,
a read is answered from buf and on miss falls through to the snapshot handed.
When the code ends with an error result the child is discarded; otherwise its
writes are flushed into the snapshot handed, oldest first. -/
def execNested (buf : State) : Prog Result → Prog Result
  | .ret res => if res.IsErr then .ret res else Prog.writeAll buf.kv.reverse (.ret res)
  | .get key cont =>
    match buf.Get key with
    | some v => execNested buf (cont (some v))
    | none => .get key (fun v => execNested buf (cont v))
  | .set key value cont => execNested (buf.Set key value) cont

/-- Modelled from the spec: sm.ExecTx is missing from the sources.  Spec 4.4,
step 3: the transaction is handed to the Account Ledger or routed to the named
plugin's execute capability, passing the snapshot in use; step 4 as in
execNested.  The argument code is that ledger or plugin code, arbitrary: it
may write any keys and fail afterwards. -/
def ExecTx {T : Types} (code : Plugins T → T.Tx → Bool → Prog Result)
    (pgz : Plugins T) (tx : T.Tx) (isCheckTx : Bool) : Prog Result :=
  execNested (State.CacheWrap { kv := [] }) (code pgz tx isCheckTx)

/-- An environment whose ExecTx is the one the spec describes, around the
given ledger and plugin code. -/
def Env.withExecTx {T : Types} (env : Env T)
    (code : Plugins T → T.Tx → Bool → Prog Result) : Env T :=
  { env with ExecTx := HubApp.ExecTx code }

/-! ## The driver -/

/-- Struct Hubcoin.  The client eyesCli is the store behind state; the calls
made on it are Env.StateCommit and Env.QuerySync.  A cacheState of none is
the nil pointer. -/
structure Hubcoin (T : Types) where
  state : State
  cacheState : Option State
  plugins : Plugins T

/-- Function NewHubcoin. -/
def NewHubcoin (T : Types) (eyesCli : List (Bytes × Bytes)) : Hubcoin T :=
  let state := NewState eyesCli
  let plugins := NewPlugins T
  { state := state, cacheState := none, plugins := plugins }

/-- Function splitKey: splits the string at the first slash; if there is
none, the second string is empty. -/
def splitKey (key : String) : Except Panic (String × String) :=
  if stringsContains key "/" then
    let keyParts := stringsSplitN key "/" 2
    match keyParts[0]?, keyParts[1]? with
    | some p0, some p1 => .ok (p0, p1)
    | _, _ => .error .indexOutOfRange
  else .ok (key, "")

/-- Method Hubcoin.GetState. -/
def Hubcoin.GetState {T : Types} (app : Hubcoin T) : State :=
  app.state.CacheWrap

/-- Method Hubcoin.Info. -/
def Hubcoin.Info {T : Types} (_app : Hubcoin T) : ResponseInfo :=
  { Data := "Hubcoin v" ++ version }

/-- Method Hubcoin.RegisterPlugin. -/
def Hubcoin.RegisterPlugin {T : Types} (app : Hubcoin T) (plugin : Plugin T) :
    Except Panic (Hubcoin T) :=
  match app.plugins.RegisterPlugin plugin with
  | .error e => .error e
  | .ok plugins => .ok { app with plugins := plugins }

/-- Method Hubcoin.SetOption. -/
def Hubcoin.SetOption {T : Types} (env : Env T) (app : Hubcoin T) (key value : String) :
    Except Panic (String × Hubcoin T) :=
  match splitKey key with
  | .error e => .error e
  | .ok (pluginName, key) =>
    if pluginName ≠ PluginNameBase then
      match app.plugins.GetByName pluginName with
      | none => .ok ("Invalid plugin name: " ++ pluginName, app)
      | some plugin =>
        let (s, state) := (plugin.SetOption key value).runOn app.state
        .ok (s, { app with state := state })
    else
      if key = "chainID" then
        .ok ("Success", { app with state := env.SetChainID app.state value })
      else if key = "account" then
        match env.ReadJSONPtr value with
        | .error err => .ok ("Error decoding acc message: " ++ err, app)
        | .ok none => .error .nilDereference
        | .ok (some acc) =>
          .ok ("Success", { app with state := env.SetAccount app.state (env.Address acc) acc })
      else .ok ("Unrecognized option key " ++ key, app)

/-- Method Hubcoin.DeliverTx. -/
def Hubcoin.DeliverTx {T : Types} (env : Env T) (app : Hubcoin T) (txBytes : Bytes) :
    Result × Hubcoin T :=
  if txBytes.length > maxTxSize then
    (ErrBaseEncodingError.AppendLog "Tx size exceeds maximum", app)
  else
    match env.ReadBinaryBytes txBytes with
    | .error err => (ErrBaseEncodingError.AppendLog ("Error decoding tx: " ++ err), app)
    | .ok tx =>
      let (res, state) := (env.ExecTx app.plugins tx false).runOn app.state
      if res.IsErr then (res.PrependLog "Error in DeliverTx", { app with state := state })
      else (res, { app with state := state })

/-- The call sm.ExecTx(app.cacheState, app.plugins, tx, true, nil) of CheckTx:
the result and cacheState afterwards, or the panic on a nil cacheState. -/
def Hubcoin.execOnCache {T : Types} (env : Env T) (app : Hubcoin T) (tx : T.Tx) :
    Except Panic (Result × Option State) :=
  match app.cacheState with
  | none =>
    match (env.ExecTx app.plugins tx true).runNil with
    | .error e => .error e
    | .ok res => .ok (res, none)
  | some c =>
    let (res, c1) := (env.ExecTx app.plugins tx true).runWrapped app.state c
    .ok (res, some c1)

/-- Method Hubcoin.CheckTx. -/
def Hubcoin.CheckTx {T : Types} (env : Env T) (app : Hubcoin T) (txBytes : Bytes) :
    Except Panic (Result × Hubcoin T) :=
  if txBytes.length > maxTxSize then
    .ok (ErrBaseEncodingError.AppendLog "Tx size exceeds maximum", app)
  else
    match env.ReadBinaryBytes txBytes with
    | .error err => .ok (ErrBaseEncodingError.AppendLog ("Error decoding tx: " ++ err), app)
    | .ok tx =>
      match app.execOnCache env tx with
      | .error e => .error e
      | .ok (res, cache) =>
        if res.IsErr then .ok (res.PrependLog "Error in CheckTx", { app with cacheState := cache })
        else .ok (OK, { app with cacheState := cache })

/-- Method Hubcoin.Query. -/
def Hubcoin.Query {T : Types} (env : Env T) (_app : Hubcoin T) (reqQuery : RequestQuery) :
    ResponseQuery :=
  if reqQuery.Data.length = 0 then
    { ResponseQuery.zero with Log := "Query cannot be zero length", Code := CodeType_EncodingError }
  else
    let reqQuery :=
      if reqQuery.Path = "/account" then
        { reqQuery with Path := "/key", Data := bytesOfString "hub/a/" ++ reqQuery.Data }
      else reqQuery
    match env.QuerySync reqQuery with
    | (resQuery, some err) =>
      { resQuery with Log := "Failed to query MerkleEyes: " ++ err, Code := CodeType_InternalError }
    | (resQuery, none) => resQuery

/-- Method Hubcoin.Commit. -/
def Hubcoin.Commit {T : Types} (env : Env T) (app : Hubcoin T) :
    Except Panic (Result × Hubcoin T) :=
  let (res, state) := env.StateCommit app.state
  let app := { app with state := state, cacheState := some state.CacheWrap }
  if res.IsErr then .error (.sanity ("Error getting hash: " ++ env.ResultError res))
  else .ok (res, app)

/-- Method Hubcoin.InitChain. -/
def Hubcoin.InitChain {T : Types} (app : Hubcoin T) (validators : List Validator) : Hubcoin T :=
  app.plugins.GetList.foldl
    (fun app plugin => { app with state := ((plugin.InitChain validators).runOn app.state).2 }) app

/-- Method Hubcoin.BeginBlock. -/
def Hubcoin.BeginBlock {T : Types} (app : Hubcoin T) (hash : Bytes) (header : T.Header) :
    Hubcoin T :=
  app.plugins.GetList.foldl
    (fun app plugin => { app with state := ((plugin.BeginBlock hash header).runOn app.state).2 }) app

/-- Method Hubcoin.EndBlock. -/
def Hubcoin.EndBlock {T : Types} (app : Hubcoin T) (height : Nat) :
    ResponseEndBlock × Hubcoin T :=
  app.plugins.GetList.foldl
    (fun acc plugin =>
      let (pluginRes, state) := (plugin.EndBlock height).runOn acc.2.state
      ({ Diffs := acc.1.Diffs ++ pluginRes.Diffs }, { acc.2 with state := state }))
    ({ Diffs := [] }, app)

/-! ## Sequences of calls made by the consensus engine -/

/-- One call on the driver's public surface, with its arguments. -/
inductive Call (T : Types) where
  | Info
  | RegisterPlugin (plugin : Plugin T)
  | SetOption (key value : String)
  | DeliverTx (txBytes : Bytes)
  | CheckTx (txBytes : Bytes)
  | Query (reqQuery : RequestQuery)
  | Commit
  | InitChain (validators : List Validator)
  | BeginBlock (hash : Bytes) (header : T.Header)
  | EndBlock (height : Nat)

/-- Whether the call is Commit. -/
def Call.isCommit {T : Types} : Call T → Bool
  | .Commit => true
  | _ => false

/-- The driver after one call; a panic halts the process. -/
def Hubcoin.call {T : Types} (env : Env T) (app : Hubcoin T) : Call T → Except Panic (Hubcoin T)
  | .Info => .ok app
  | .RegisterPlugin plugin => app.RegisterPlugin plugin
  | .SetOption key value =>
    match app.SetOption env key value with
    | .error e => .error e
    | .ok (_, app1) => .ok app1
  | .DeliverTx txBytes => .ok (app.DeliverTx env txBytes).2
  | .CheckTx txBytes =>
    match app.CheckTx env txBytes with
    | .error e => .error e
    | .ok (_, app1) => .ok app1
  | .Query _ => .ok app
  | .Commit =>
    match app.Commit env with
    | .error e => .error e
    | .ok (_, app1) => .ok app1
  | .InitChain validators => .ok (app.InitChain validators)
  | .BeginBlock hash header => .ok (app.BeginBlock hash header)
  | .EndBlock height => .ok (app.EndBlock height).2

/-- The driver after a finite sequence of calls, in order. -/
def Hubcoin.calls {T : Types} (env : Env T) : Hubcoin T → List (Call T) → Except Panic (Hubcoin T)
  | app, [] => .ok app
  | app, c :: cs =>
    match app.call env c with
    | .error e => .error e
    | .ok app1 => Hubcoin.calls env app1 cs

/-- The driver after a sequence of CheckTx calls, in order. -/
def Hubcoin.checks {T : Types} (env : Env T) : Hubcoin T → List Bytes → Except Panic (Hubcoin T)
  | app, [] => .ok app
  | app, txBytes :: rest =>
    match app.CheckTx env txBytes with
    | .error e => .error e
    | .ok (_, app1) => Hubcoin.checks env app1 rest

/-! ## A concrete instance, for evaluation -/

/-- Transactions are their own bytes; accounts and headers carry nothing. -/
def demoTypes : Types :=
  { Tx := Bytes, Account := Unit, Header := Unit }

/-- An error result as a ledger would return it. -/
def demoFailure : Result :=
  { Code := CodeType_InternalError, Data := [], Log := "rejected" }

/-- A concrete environment.  Empty input does not decode.  Executing a
transaction reads the key equal to the transaction, writes the value 1 under
it, and fails when the key had been written before or the first byte is 0.
The store accepts every commit and answers a query with its key. -/
def demoEnv : Env demoTypes :=
  { ReadBinaryBytes := fun b => if b.length = 0 then .error "EOF" else .ok b
    ExecTx := fun _ tx _ =>
      .get tx (fun old => .set tx [1]
        (.ret (if old.isSome || tx.head? == some 0 then demoFailure else OK)))
    StateCommit := fun s => ({ Code := CodeType_OK, Data := [42], Log := "" }, s)
    SetChainID := fun s _ => s
    ReadJSONPtr := fun _ => .ok (some ())
    Address := fun _ => []
    SetAccount := fun s _ _ => s
    ResultError := fun res => res.Log
    QuerySync := fun req => ({ ResponseQuery.zero with Key := req.Data, Log := req.Path }, none) }

/-- A plugin named counter whose option handler writes the value under the
key and answers with the key. -/
def demoPlugin : Plugin demoTypes :=
  { Name := "counter"
    SetOption := fun key value => .set (bytesOfString key) (bytesOfString value) (.ret key)
    InitChain := fun _ => .ret ()
    BeginBlock := fun _ _ => .ret ()
    EndBlock := fun _ => .ret { Diffs := [] } }

/-- The driver right after construction over an empty store. -/
def demoNew : Hubcoin demoTypes :=
  NewHubcoin demoTypes []

/-- A driver with the counter plugin, one committed key and a validation
snapshot that has one buffered write. -/
def demoApp : Hubcoin demoTypes :=
  { state := { kv := [([9], [9])] }
    cacheState := some { kv := [([5], [1])] }
    plugins := { plist := [demoPlugin] } }

/-- The concrete environment with ExecTx as the spec describes it, around the
code of demoEnv that writes before it fails. -/
def demoSpecEnv : Env demoTypes :=
  demoEnv.withExecTx demoEnv.ExecTx

theorem stringsIndex_single (c : Char) (s : List Char) :
    (c ∉ s → stringsIndex s [c] = none) ∧
    (c ∈ s → ∃ m, stringsIndex s [c] = some m ∧ c ∉ s.take m ∧
      s.take m ++ c :: s.drop (m + 1) = s) := by
  induction s with
  | nil => simp [stringsIndex, List.isPrefixOf]
  | cons a t ih =>
    by_cases hca : c = a
    · subst hca
      simp [stringsIndex, List.isPrefixOf]
    · constructor
      · intro hnot
        have ht : c ∉ t := fun h => hnot (List.mem_cons_of_mem _ h)
        simp [stringsIndex, List.isPrefixOf, hca, ih.1 ht]
      · intro hmem
        have ht : c ∈ t := by
          rcases List.mem_cons.mp hmem with h | h
          · exact absurd h hca
          · exact h
        obtain ⟨m, hm, hnot, heq⟩ := ih.2 ht
        refine ⟨m + 1, ?_, ?_, ?_⟩
        · simp [stringsIndex, List.isPrefixOf, hca, hm]
        · simp [List.take_succ_cons, hca, hnot]
        · simp [List.take_succ_cons, heq]

theorem splitKey_spec (key : String) :
    ('/' ∈ key.data →
      ∃ pre suf, splitKey key = .ok (pre, suf) ∧ '/' ∉ pre.data ∧
        pre ++ "/" ++ suf = key) ∧
    ('/' ∉ key.data → splitKey key = .ok (key, "")) := by
  have hsep : ("/" : String).data = ['/'] := rfl
  constructor
  · intro hmem
    obtain ⟨m, hm, hnot, heq⟩ := (stringsIndex_single _ key.data).2 hmem
    refine ⟨String.mk (key.data.take m), String.mk (key.data.drop (m + 1)), ?_, hnot, ?_⟩
    · have hn : (if 2 > key.data.length + 1 then key.data.length + 1 else 2) = 2 := by
        cases hk : key.data with
        | nil => rw [hk] at hmem; simp at hmem
        | cons a t => simp
      have hc : stringsContains key "/" = true := by
        simp [stringsContains, hsep, hm]
      have hs : stringsSplitN key "/" 2
          = [String.mk (key.data.take m), String.mk (key.data.drop (m + 1))] := by
        unfold stringsSplitN
        simp only [hn, hsep]
        simp [splitLoop, hm]
      unfold splitKey
      simp [hc, hs]
    · apply String.ext
      simp [String.data_append, hsep]
      exact heq
  · intro hnot
    have := (stringsIndex_single _ key.data).1 hnot
    simp [splitKey, stringsContains, hsep, this]

/-! ## Lemmas on texts and results -/

theorem sizeErr_ne_decodeErr (err : String) :
    ErrBaseEncodingError.AppendLog "Tx size exceeds maximum"
      ≠ ErrBaseEncodingError.AppendLog ("Error decoding tx: " ++ err) := by
  intro h
  have h1 := congrArg (fun r => r.Log.data) h
  simp [Result.AppendLog, ErrBaseEncodingError, String.data_append] at h1

theorem sizeErr_ne_deliverErr (res : Result) :
    ErrBaseEncodingError.AppendLog "Tx size exceeds maximum"
      ≠ res.PrependLog "Error in DeliverTx" := by
  intro h
  have h1 := congrArg (fun r => r.Log.data) h
  simp [Result.AppendLog, Result.PrependLog, ErrBaseEncodingError, String.data_append] at h1

theorem sizeErr_ne_checkErr (res : Result) :
    ErrBaseEncodingError.AppendLog "Tx size exceeds maximum"
      ≠ res.PrependLog "Error in CheckTx" := by
  intro h
  have h1 := congrArg (fun r => r.Log.data) h
  simp [Result.AppendLog, Result.PrependLog, ErrBaseEncodingError, String.data_append] at h1

theorem sizeErr_isErr :
    (ErrBaseEncodingError.AppendLog "Tx size exceeds maximum").IsErr = true := by
  decide

/-- C1. For every byte string, DeliverTx and CheckTx return the encoding-error
result with the log Tx size exceeds maximum exactly when the length exceeds
10240; in that case the result and the driver afterwards are the same for
every content and every decoder and executed code, and the driver, with both
snapshots, is unchanged. -/
theorem C1_oversize_rejected {T : Types} (env : Env T) (app : Hubcoin T) (txBytes : Bytes) :
    (txBytes.length > 10240 →
      app.DeliverTx env txBytes
          = (ErrBaseEncodingError.AppendLog "Tx size exceeds maximum", app) ∧
      app.CheckTx env txBytes
          = .ok (ErrBaseEncodingError.AppendLog "Tx size exceeds maximum", app)) ∧
    (¬ txBytes.length > 10240 →
      (app.DeliverTx env txBytes).1
          ≠ ErrBaseEncodingError.AppendLog "Tx size exceeds maximum" ∧
      ∀ app1, app.CheckTx env txBytes
          ≠ .ok (ErrBaseEncodingError.AppendLog "Tx size exceeds maximum", app1)) := by
  constructor
  · intro h
    have h1 : txBytes.length > maxTxSize := h
    simp [Hubcoin.DeliverTx, Hubcoin.CheckTx, h1]
  · intro h
    have h1 : ¬ txBytes.length > maxTxSize := h
    constructor
    · unfold Hubcoin.DeliverTx
      rw [if_neg h1]
      cases hdec : env.ReadBinaryBytes txBytes with
      | error err => exact fun h => sizeErr_ne_decodeErr err h.symm
      | ok tx =>
        simp only
        split
        · exact fun h => sizeErr_ne_deliverErr _ h.symm
        · rename_i hres
          intro heq
          rw [heq] at hres
          exact hres sizeErr_isErr
    · intro app1
      unfold Hubcoin.CheckTx
      rw [if_neg h1]
      cases hdec : env.ReadBinaryBytes txBytes with
      | error err =>
        intro heq
        simp only [Except.ok.injEq, Prod.mk.injEq] at heq
        exact sizeErr_ne_decodeErr err heq.1.symm
      | ok tx =>
        simp only
        cases hex : app.execOnCache env tx with
        | error e => simp
        | ok p =>
          obtain ⟨res, cache⟩ := p
          simp only
          split
          · intro heq
            simp only [Except.ok.injEq, Prod.mk.injEq] at heq
            exact sizeErr_ne_checkErr _ heq.1.symm
          · intro heq
            simp only [Except.ok.injEq, Prod.mk.injEq] at heq
            have := heq.1
            revert this
            decide

/-! ## Frame lemmas for CheckTx -/

theorem execOnCache_some {T : Types} (env : Env T) (app : Hubcoin T) (tx : T.Tx) (c : State)
    (hc : app.cacheState = some c) :
    app.execOnCache env tx
      = .ok (((env.ExecTx app.plugins tx true).runWrapped app.state c).1,
             some ((env.ExecTx app.plugins tx true).runWrapped app.state c).2) := by
  unfold Hubcoin.execOnCache
  rw [hc]

theorem CheckTx_frame {T : Types} (env : Env T) (app app1 : Hubcoin T) (txBytes : Bytes)
    (res : Result) (h : app.CheckTx env txBytes = .ok (res, app1)) :
    app1.state = app.state ∧ app1.plugins = app.plugins := by
  unfold Hubcoin.CheckTx at h
  split at h
  · simp only [Except.ok.injEq, Prod.mk.injEq] at h
    rw [← h.2]
    exact ⟨rfl, rfl⟩
  · split at h
    · simp only [Except.ok.injEq, Prod.mk.injEq] at h
      rw [← h.2]
      exact ⟨rfl, rfl⟩
    · split at h
      · cases h
      · split at h <;>
        · simp only [Except.ok.injEq, Prod.mk.injEq] at h
          rw [← h.2]
          exact ⟨rfl, rfl⟩

theorem CheckTx_returns {T : Types} (env : Env T) (app : Hubcoin T) (txBytes : Bytes)
    (c : State) (hc : app.cacheState = some c) :
    ∃ res app1 c1, app.CheckTx env txBytes = .ok (res, app1) ∧ app1.cacheState = some c1 := by
  unfold Hubcoin.CheckTx
  split
  · exact ⟨_, _, c, rfl, hc⟩
  · split
    · exact ⟨_, _, c, rfl, hc⟩
    · rename_i tx _
      rw [execOnCache_some env app tx c hc]
      simp only
      split
      · exact ⟨_, _, _, rfl, rfl⟩
      · exact ⟨_, _, _, rfl, rfl⟩

theorem checks_frame {T : Types} (env : Env T) (txs : List Bytes) :
    ∀ (app app1 : Hubcoin T), app.checks env txs = .ok app1 →
      app1.state = app.state ∧ app1.plugins = app.plugins := by
  induction txs with
  | nil =>
    intro app app1 h
    simp only [Hubcoin.checks, Except.ok.injEq] at h
    rw [← h]
    exact ⟨rfl, rfl⟩
  | cons txBytes rest ih =>
    intro app app1 h
    simp only [Hubcoin.checks] at h
    cases hck : app.CheckTx env txBytes with
    | error e => rw [hck] at h; cases h
    | ok p =>
      obtain ⟨res, app2⟩ := p
      rw [hck] at h
      simp only at h
      obtain ⟨hs, hp⟩ := CheckTx_frame env app app2 txBytes res hck
      obtain ⟨hs1, hp1⟩ := ih app2 app1 h
      exact ⟨hs1.trans hs, hp1.trans hp⟩

theorem Commit_congr {T : Types} (env : Env T) (app app1 : Hubcoin T)
    (hs : app1.state = app.state) (hp : app1.plugins = app.plugins) :
    app1.Commit env = app.Commit env := by
  unfold Hubcoin.Commit
  rw [hs, hp]

theorem Commit_ok {T : Types} (env : Env T) (app app1 : Hubcoin T) (res : Result)
    (h : app.Commit env = .ok (res, app1)) :
    res = (env.StateCommit app.state).1 ∧ res.IsErr = false ∧
    app1 = { state := (env.StateCommit app.state).2,
             cacheState := some (env.StateCommit app.state).2.CacheWrap,
             plugins := app.plugins } := by
  unfold Hubcoin.Commit at h
  simp only at h
  split at h
  · cases h
  · rename_i hres
    simp only [Except.ok.injEq, Prod.mk.injEq] at h
    refine ⟨h.1.symm, ?_, h.2.symm⟩
    rw [← h.1]
    simpa using hres

/-- C2. Commit/rebuild law: after any sequence of CheckTx calls followed by a
Commit that returns, cacheState is a fresh cache-wrap of the committed state,
it has no buffered write, every read through it gives what the committed
state gives, and the driver is the one a Commit without the preceding checks
would have produced. -/
theorem C2_commit_rebuilds_validation_snapshot {T : Types} (env : Env T)
    (app app1 app2 : Hubcoin T) (txs : List Bytes) (res : Result)
    (hchecks : app.checks env txs = .ok app1)
    (hcommit : app1.Commit env = .ok (res, app2)) :
    app2.cacheState = some app2.state.CacheWrap ∧
    app2.state.CacheWrap.kv = [] ∧
    (∀ c, app2.cacheState = some c →
      ∀ key, c.GetThrough app2.state key = app2.state.Get key) ∧
    app.Commit env = .ok (res, app2) := by
  obtain ⟨hs, hp⟩ := checks_frame env txs app app1 hchecks
  obtain ⟨_, _, happ2⟩ := Commit_ok env app1 app2 res hcommit
  refine ⟨?_, rfl, ?_, ?_⟩
  · rw [happ2]
  · intro c hc key
    rw [happ2] at hc
    simp only [Option.some.injEq] at hc
    rw [← hc]
    simp [State.GetThrough, State.CacheWrap, State.Get]
  · rw [← Commit_congr env app app1 hs hp]
    exact hcommit

theorem C2_witness :
    demoApp.checks demoEnv [[7], [0], [7]]
        = .ok { demoApp with
            cacheState := some { kv := [([7], [1]), ([0], [1]), ([7], [1]), ([5], [1])] } } ∧
    (some ({ kv := [] } : State) = some (State.CacheWrap { kv := [([9], [9])] }) ∧
     (State.CacheWrap { kv := [([9], [9])] }).kv = [] ∧
     (∀ c, some ({ kv := [] } : State) = some c →
       ∀ key, c.GetThrough { kv := [([9], [9])] } key = State.Get { kv := [([9], [9])] } key) ∧
     demoApp.Commit demoEnv
        = .ok ({ Code := CodeType_OK, Data := [42], Log := "" },
               { demoApp with cacheState := some { kv := [] } })) :=
  ⟨rfl, C2_commit_rebuilds_validation_snapshot demoEnv demoApp _ _ [[7], [0], [7]] _ rfl rfl⟩

/-- C3. CheckTx has no side effect on committed state: when a validation
snapshot exists, CheckTx returns for every input and every executed code, and
the committed state and the registry after the call are those before it. -/
theorem C3_checkTx_keeps_committed_state {T : Types} (env : Env T) (app : Hubcoin T)
    (c : State) (txBytes : Bytes) (hc : app.cacheState = some c) :
    ∃ res app1, app.CheckTx env txBytes = .ok (res, app1) ∧
      app1.state = app.state ∧ app1.plugins = app.plugins := by
  obtain ⟨res, app1, _, h, _⟩ := CheckTx_returns env app txBytes c hc
  exact ⟨res, app1, h, CheckTx_frame env app app1 txBytes res h⟩

theorem C3_witness :
    demoApp.cacheState = some { kv := [([5], [1])] } ∧
    ∃ res app1, demoApp.CheckTx demoEnv [5] = .ok (res, app1) ∧
      app1.state = demoApp.state ∧ app1.plugins = demoApp.plugins :=
  ⟨rfl, C3_checkTx_keeps_committed_state demoEnv demoApp _ [5] rfl⟩

/-! ## Which calls touch the cacheState pointer -/

theorem foldl_cacheState {T : Types} {β : Type} (g : Hubcoin T → β → State) (l : List β) :
    ∀ app : Hubcoin T,
      (l.foldl (fun app b => { app with state := g app b }) app).cacheState = app.cacheState := by
  induction l with
  | nil => intro app; rfl
  | cons b t ih => intro app; simp only [List.foldl_cons]; rw [ih]

theorem EndBlock_cacheState {T : Types} (height : Nat) (l : List (Plugin T)) :
    ∀ acc : ResponseEndBlock × Hubcoin T,
      (l.foldl
        (fun acc plugin =>
          (({ Diffs := acc.1.Diffs ++ ((plugin.EndBlock height).runOn acc.2.state).1.Diffs },
            { acc.2 with state := ((plugin.EndBlock height).runOn acc.2.state).2 }) :
            ResponseEndBlock × Hubcoin T))
        acc).2.cacheState = acc.2.cacheState := by
  induction l with
  | nil => intro acc; rfl
  | cons b t ih => intro acc; simp only [List.foldl_cons]; rw [ih]

theorem SetOption_cacheState {T : Types} (env : Env T) (app app1 : Hubcoin T)
    (key value s : String) (h : app.SetOption env key value = .ok (s, app1)) :
    app1.cacheState = app.cacheState := by
  unfold Hubcoin.SetOption at h
  split at h
  · cases h
  · split at h
    · split at h
      · simp only [Except.ok.injEq, Prod.mk.injEq] at h
        rw [← h.2]
      · simp only [Except.ok.injEq, Prod.mk.injEq] at h
        rw [← h.2]
    · split at h
      · simp only [Except.ok.injEq, Prod.mk.injEq] at h
        rw [← h.2]
      · split at h
        · split at h
          · simp only [Except.ok.injEq, Prod.mk.injEq] at h
            rw [← h.2]
          · cases h
          · simp only [Except.ok.injEq, Prod.mk.injEq] at h
            rw [← h.2]
        · simp only [Except.ok.injEq, Prod.mk.injEq] at h
          rw [← h.2]

theorem CheckTx_cacheState {T : Types} (env : Env T) (app app1 : Hubcoin T)
    (txBytes : Bytes) (res : Result) (h : app.CheckTx env txBytes = .ok (res, app1)) :
    app1.cacheState.isSome = app.cacheState.isSome := by
  cases hc : app.cacheState with
  | some c =>
    obtain ⟨res2, app2, c1, h2, hc1⟩ := CheckTx_returns env app txBytes c hc
    rw [h] at h2
    simp only [Except.ok.injEq, Prod.mk.injEq] at h2
    rw [h2.2, hc1]
    rfl
  | none =>
    unfold Hubcoin.CheckTx at h
    split at h
    · simp only [Except.ok.injEq, Prod.mk.injEq] at h
      rw [← h.2, hc]
    · split at h
      · simp only [Except.ok.injEq, Prod.mk.injEq] at h
        rw [← h.2, hc]
      · rename_i tx _
        unfold Hubcoin.execOnCache at h
        rw [hc] at h
        simp only at h
        cases hr : (env.ExecTx app.plugins tx true).runNil with
        | error e => rw [hr] at h; cases h
        | ok r =>
          rw [hr] at h
          simp only at h
          split at h <;>
          · simp only [Except.ok.injEq, Prod.mk.injEq] at h
            rw [← h.2]

theorem call_cacheState {T : Types} (env : Env T) (app app1 : Hubcoin T) (c : Call T)
    (h : app.call env c = .ok app1) :
    app1.cacheState.isSome = (app.cacheState.isSome || c.isCommit) := by
  cases c with
  | Info =>
    simp only [Hubcoin.call, Except.ok.injEq] at h
    simp [← h, Call.isCommit]
  | RegisterPlugin plugin =>
    simp only [Hubcoin.call, Hubcoin.RegisterPlugin] at h
    split at h
    · cases h
    · simp only [Except.ok.injEq] at h
      simp [← h, Call.isCommit]
  | SetOption key value =>
    simp only [Hubcoin.call] at h
    cases hs : app.SetOption env key value with
    | error e => rw [hs] at h; cases h
    | ok p =>
      obtain ⟨s, app2⟩ := p
      rw [hs] at h
      simp only [Except.ok.injEq] at h
      subst h
      simp [SetOption_cacheState env app app2 key value s hs, Call.isCommit]
  | DeliverTx txBytes =>
    simp only [Hubcoin.call, Except.ok.injEq] at h
    have : app1.cacheState = app.cacheState := by
      rw [← h]
      unfold Hubcoin.DeliverTx
      split
      · rfl
      · split
        · rfl
        · simp only
          split <;> rfl
    simp [this, Call.isCommit]
  | CheckTx txBytes =>
    simp only [Hubcoin.call] at h
    cases hs : app.CheckTx env txBytes with
    | error e => rw [hs] at h; cases h
    | ok p =>
      obtain ⟨res, app2⟩ := p
      rw [hs] at h
      simp only [Except.ok.injEq] at h
      subst h
      simp [CheckTx_cacheState env app app2 txBytes res hs, Call.isCommit]
  | Query reqQuery =>
    simp only [Hubcoin.call, Except.ok.injEq] at h
    simp [← h, Call.isCommit]
  | Commit =>
    simp only [Hubcoin.call] at h
    cases hs : app.Commit env with
    | error e => rw [hs] at h; cases h
    | ok p =>
      obtain ⟨res, app2⟩ := p
      rw [hs] at h
      simp only [Except.ok.injEq] at h
      subst h
      obtain ⟨_, _, happ2⟩ := Commit_ok env app app2 res hs
      simp [happ2, Call.isCommit]
  | InitChain validators =>
    simp only [Hubcoin.call, Except.ok.injEq] at h
    have : app1.cacheState = app.cacheState := by
      rw [← h]
      exact foldl_cacheState _ _ app
    simp [this, Call.isCommit]
  | BeginBlock hash header =>
    simp only [Hubcoin.call, Except.ok.injEq] at h
    have : app1.cacheState = app.cacheState := by
      rw [← h]
      exact foldl_cacheState _ _ app
    simp [this, Call.isCommit]
  | EndBlock height =>
    simp only [Hubcoin.call, Except.ok.injEq] at h
    have : app1.cacheState = app.cacheState := by
      rw [← h]
      exact EndBlock_cacheState height _ (_, app)
    simp [this, Call.isCommit]

theorem calls_cacheState {T : Types} (env : Env T) (cs : List (Call T)) :
    ∀ (app app1 : Hubcoin T), app.calls env cs = .ok app1 →
      app1.cacheState.isSome = (app.cacheState.isSome || cs.any Call.isCommit) := by
  induction cs with
  | nil =>
    intro app app1 h
    simp only [Hubcoin.calls, Except.ok.injEq] at h
    simp [← h]
  | cons c rest ih =>
    intro app app1 h
    simp only [Hubcoin.calls] at h
    cases hc : app.call env c with
    | error e => rw [hc] at h; cases h
    | ok app2 =>
      rw [hc] at h
      simp only at h
      rw [ih app2 app1 h, call_cacheState env app app2 c hc]
      simp [Bool.or_assoc]

/-! ## Claims on the validation snapshot and on rejection -/

/-- C4, as stated, fails: right after construction, which is the state reached
by the empty sequence of calls, cacheState is nil, and a CheckTx of a
decodable transaction of admissible size dereferences nil. -/
theorem C4_counterexample :
    (NewHubcoin demoTypes []).calls demoEnv [] = .ok (NewHubcoin demoTypes []) ∧
    (NewHubcoin demoTypes []).cacheState = none ∧
    ¬ ([7] : Bytes).length > maxTxSize ∧
    demoEnv.ReadBinaryBytes [7] = .ok [7] ∧
    (NewHubcoin demoTypes []).CheckTx demoEnv [7] = .error .nilDereference :=
  ⟨rfl, rfl, by decide, rfl, rfl⟩

/-- C4, amended. In a driver state reached from NewHubcoin by a finite
sequence of calls, a validation snapshot exists exactly when the sequence has
a Commit; when it has one, CheckTx on a decodable transaction of admissible
size returns, having executed the transaction against that snapshot. -/
theorem C4_validation_snapshot_after_commit {T : Types} (env : Env T)
    (eyesCli : List (Bytes × Bytes)) (cs : List (Call T)) (app : Hubcoin T)
    (hreach : (NewHubcoin T eyesCli).calls env cs = .ok app) :
    app.cacheState.isSome = cs.any Call.isCommit ∧
    (cs.any Call.isCommit = true →
      ∃ c, app.cacheState = some c ∧
        ∀ txBytes tx, ¬ txBytes.length > maxTxSize → env.ReadBinaryBytes txBytes = .ok tx →
          ∃ res app1, app.CheckTx env txBytes = .ok (res, app1) ∧
            app1.cacheState
              = some ((env.ExecTx app.plugins tx true).runWrapped app.state c).2) := by
  have hinv := calls_cacheState env cs (NewHubcoin T eyesCli) app hreach
  have hsome : app.cacheState.isSome = cs.any Call.isCommit := by
    rw [hinv]
    simp [NewHubcoin]
  refine ⟨hsome, ?_⟩
  intro hany
  rw [hany] at hsome
  obtain ⟨c, hc⟩ := Option.isSome_iff_exists.mp hsome
  refine ⟨c, hc, ?_⟩
  intro txBytes tx hsize hdec
  unfold Hubcoin.CheckTx
  rw [if_neg hsize, hdec]
  simp only
  rw [execOnCache_some env app tx c hc]
  simp only
  split
  · exact ⟨_, _, rfl, rfl⟩
  · exact ⟨_, _, rfl, rfl⟩

theorem C4_witness :
    ∃ app, (NewHubcoin demoTypes []).calls demoEnv
        [Call.DeliverTx [7], Call.Commit, Call.CheckTx [0]] = .ok app ∧
      (app.cacheState.isSome
          = [Call.DeliverTx ([7] : Bytes), (Call.Commit : Call demoTypes),
             Call.CheckTx [0]].any Call.isCommit ∧
       ([Call.DeliverTx ([7] : Bytes), (Call.Commit : Call demoTypes),
             Call.CheckTx [0]].any Call.isCommit = true →
        ∃ c, app.cacheState = some c ∧
          ∀ txBytes tx, ¬ txBytes.length > maxTxSize →
            demoEnv.ReadBinaryBytes txBytes = .ok tx →
            ∃ res app1, app.CheckTx demoEnv txBytes = .ok (res, app1) ∧
              app1.cacheState
                = some ((demoEnv.ExecTx app.plugins tx true).runWrapped app.state c).2)) :=
  ⟨_, rfl, C4_validation_snapshot_after_commit demoEnv [] _ _ rfl⟩

/-! ## Execution in a nested cache-wrap -/

theorem writeAll_runOn {α : Type} (p : Prog α) (l : List (Bytes × Bytes)) :
    ∀ s : State, (Prog.writeAll l p).runOn s = p.runOn { kv := l.reverse ++ s.kv } := by
  induction l with
  | nil => intro s; rfl
  | cons kv rest ih =>
    intro s
    obtain ⟨key, value⟩ := kv
    simp only [Prog.writeAll, Prog.runOn]
    rw [ih]
    simp [State.Set]

theorem writeAll_runWrapped {α : Type} (parent : State) (p : Prog α)
    (l : List (Bytes × Bytes)) :
    ∀ c : State,
      (Prog.writeAll l p).runWrapped parent c = p.runWrapped parent { kv := l.reverse ++ c.kv } := by
  induction l with
  | nil => intro c; rfl
  | cons kv rest ih =>
    intro c
    obtain ⟨key, value⟩ := kv
    simp only [Prog.writeAll, Prog.runWrapped]
    rw [ih]
    simp [State.Set]

/-- What sm.ExecTx, as the spec describes it, does to a committed state: the
code runs in a child of the state; an error result leaves the state as it
was, any other result puts the writes of the child on top of it. -/
theorem execNested_runOn (p : Prog Result) :
    ∀ (buf s : State),
      (execNested buf p).runOn s
        = (if (p.runWrapped s buf).1.IsErr then ((p.runWrapped s buf).1, s)
           else ((p.runWrapped s buf).1, { kv := (p.runWrapped s buf).2.kv ++ s.kv })) := by
  induction p with
  | ret res =>
    intro buf s
    simp only [execNested, Prog.runWrapped]
    cases hres : res.IsErr with
    | true => simp [Prog.runOn]
    | false =>
      simp only [Bool.false_eq_true, if_false]
      rw [writeAll_runOn]
      simp [Prog.runOn]
  | get key cont ih =>
    intro buf s
    simp only [execNested, Prog.runWrapped]
    cases hb : buf.Get key with
    | some v =>
      simp only [State.GetThrough, hb]
      exact ih (some v) buf s
    | none =>
      simp only [State.GetThrough, hb, Prog.runOn]
      exact ih (s.Get key) buf s
  | set key value cont ih =>
    intro buf s
    simp only [execNested, Prog.runWrapped]
    exact ih (buf.Set key value) s

theorem execNested_runOn_err (p : Prog Result) (buf s : State)
    (h : ((execNested buf p).runOn s).1.IsErr = true) :
    ((execNested buf p).runOn s).2 = s := by
  rw [execNested_runOn] at h ⊢
  split
  · rfl
  · rename_i hne
    rw [if_neg hne] at h
    exact absurd h hne

theorem execNested_runWrapped_err (parent : State) (p : Prog Result) :
    ∀ (buf c : State),
      ((execNested buf p).runWrapped parent c).1.IsErr = true →
      ((execNested buf p).runWrapped parent c).2 = c := by
  induction p with
  | ret res =>
    intro buf c h
    simp only [execNested] at h ⊢
    cases hres : res.IsErr with
    | true => simp [Prog.runWrapped]
    | false =>
      rw [hres] at h
      simp only [Bool.false_eq_true, if_false] at h
      rw [writeAll_runWrapped] at h
      simp only [Prog.runWrapped] at h
      rw [hres] at h
      cases h
  | get key cont ih =>
    intro buf c h
    simp only [execNested] at h ⊢
    cases hb : buf.Get key with
    | some v =>
      rw [hb] at h
      exact ih (some v) buf c h
    | none =>
      rw [hb] at h
      simp only [Prog.runWrapped] at h ⊢
      exact ih _ buf c h
  | set key value cont ih =>
    intro buf c h
    simp only [execNested] at h ⊢
    exact ih (buf.Set key value) c h

/-- C5. Rejection is atomic, with sm.ExecTx as the spec describes it around
arbitrary ledger and plugin code (code that may write and then fail): when
DeliverTx returns an error result the driver, and so the committed snapshot,
is the one before the call; when CheckTx returns an error result the driver,
and so the validation snapshot, is the one before the call. -/
theorem C5_rejection_atomic {T : Types} (env : Env T)
    (code : Plugins T → T.Tx → Bool → Prog Result) (app : Hubcoin T) (txBytes : Bytes) :
    ((app.DeliverTx (env.withExecTx code) txBytes).1.IsErr = true →
      (app.DeliverTx (env.withExecTx code) txBytes).2 = app) ∧
    (∀ res app1, app.CheckTx (env.withExecTx code) txBytes = .ok (res, app1) →
      res.IsErr = true → app1 = app) := by
  constructor
  · unfold Hubcoin.DeliverTx
    split
    · intro _; rfl
    · split
      · intro _; rfl
      · rename_i tx _
        simp only
        cases hres : (((env.withExecTx code).ExecTx app.plugins tx false).runOn app.state).1.IsErr with
        | true =>
          intro _
          simp only [if_true]
          have hs := execNested_runOn_err (code app.plugins tx false)
            (State.CacheWrap { kv := [] }) app.state hres
          have hs1 : (((env.withExecTx code).ExecTx app.plugins tx false).runOn app.state).2
              = app.state := hs
          rw [hs1]
        | false =>
          intro h
          simp only [Bool.false_eq_true, if_false] at h
          rw [hres] at h
          cases h
  · intro res app1 h hres
    unfold Hubcoin.CheckTx at h
    split at h
    · simp only [Except.ok.injEq, Prod.mk.injEq] at h
      exact h.2.symm
    · split at h
      · simp only [Except.ok.injEq, Prod.mk.injEq] at h
        exact h.2.symm
      · rename_i tx _
        cases hc : app.cacheState with
        | none =>
          unfold Hubcoin.execOnCache at h
          rw [hc] at h
          simp only at h
          cases hr : ((env.withExecTx code).ExecTx app.plugins tx true).runNil with
          | error e => rw [hr] at h; cases h
          | ok r =>
            rw [hr] at h
            simp only at h
            have happ : ({ app with cacheState := none } : Hubcoin T) = app := by
              cases app
              simp only at hc
              subst hc
              rfl
            rw [happ] at h
            split at h <;>
            · simp only [Except.ok.injEq, Prod.mk.injEq] at h
              exact h.2.symm
        | some c =>
          rw [execOnCache_some (env.withExecTx code) app tx c hc] at h
          simp only at h
          split at h
          · rename_i herr
            simp only [Except.ok.injEq, Prod.mk.injEq] at h
            have hs := execNested_runWrapped_err app.state (code app.plugins tx true)
              (State.CacheWrap { kv := [] }) c herr
            have hs1 : (((env.withExecTx code).ExecTx app.plugins tx true).runWrapped
                app.state c).2 = c := hs
            rw [hs1] at h
            rw [← h.2]
            cases app
            simp only at hc
            subst hc
            rfl
          · simp only [Except.ok.injEq, Prod.mk.injEq] at h
            rw [← h.1] at hres
            cases hres

theorem C5_witness :
    ((demoSpecEnv.ExecTx demoApp.plugins [0] false).runOn demoApp.state).1 = demoFailure ∧
    (demoApp.DeliverTx demoSpecEnv [0]).1.IsErr = true ∧
    (demoApp.DeliverTx demoSpecEnv [0]).2 = demoApp ∧
    demoApp.CheckTx demoSpecEnv [0]
      = .ok (demoFailure.PrependLog "Error in CheckTx", demoApp) ∧
    (demoApp.DeliverTx demoSpecEnv [7]).1 = OK ∧
    (demoApp.DeliverTx demoSpecEnv [7]).2.state.kv = [([7], [1]), ([9], [9])] ∧
    demoApp.CheckTx demoSpecEnv [7]
      = .ok (OK, { demoApp with cacheState := some { kv := [([7], [1]), ([5], [1])] } }) :=
  ⟨rfl, rfl,
    (C5_rejection_atomic demoEnv demoEnv.ExecTx demoApp [0]).1 rfl,
    rfl, rfl, rfl, rfl⟩

/-- C6. For input of admissible size that decodes to tx, DeliverTx returns an
error exactly when ExecTx on the committed state with isCheckTx = false does,
CheckTx returns an error exactly when ExecTx on the validation snapshot with
isCheckTx = true does; an error keeps the code of ExecTx and has the log of
ExecTx after the text Error in DeliverTx, respectively Error in CheckTx, and a
semicolon; on success DeliverTx returns the result of ExecTx, whose code is
OK, and CheckTx returns abci.OK.  With a nil cacheState, CheckTx returns in
the same way when ExecTx returns and panics when ExecTx panics. -/
theorem C6_exec_outcome_surfaced {T : Types} (env : Env T) (app : Hubcoin T)
    (txBytes : Bytes) (tx : T.Tx)
    (hsize : ¬ txBytes.length > maxTxSize) (hdec : env.ReadBinaryBytes txBytes = .ok tx) :
    ((app.DeliverTx env txBytes).1.IsErr
        = ((env.ExecTx app.plugins tx false).runOn app.state).1.IsErr ∧
     (((env.ExecTx app.plugins tx false).runOn app.state).1.IsErr = true →
        (app.DeliverTx env txBytes).1
          = { Code := ((env.ExecTx app.plugins tx false).runOn app.state).1.Code
              Data := ((env.ExecTx app.plugins tx false).runOn app.state).1.Data
              Log := "Error in DeliverTx" ++ ";"
                ++ ((env.ExecTx app.plugins tx false).runOn app.state).1.Log }) ∧
     (((env.ExecTx app.plugins tx false).runOn app.state).1.IsErr = false →
        (app.DeliverTx env txBytes).1 = ((env.ExecTx app.plugins tx false).runOn app.state).1 ∧
        (app.DeliverTx env txBytes).1.IsOK = true)) ∧
    (∀ c, app.cacheState = some c →
      ∃ out app1, app.CheckTx env txBytes = .ok (out, app1) ∧
        out.IsErr = ((env.ExecTx app.plugins tx true).runWrapped app.state c).1.IsErr ∧
        (((env.ExecTx app.plugins tx true).runWrapped app.state c).1.IsErr = true →
          out = { Code := ((env.ExecTx app.plugins tx true).runWrapped app.state c).1.Code
                  Data := ((env.ExecTx app.plugins tx true).runWrapped app.state c).1.Data
                  Log := "Error in CheckTx" ++ ";"
                    ++ ((env.ExecTx app.plugins tx true).runWrapped app.state c).1.Log }) ∧
        (((env.ExecTx app.plugins tx true).runWrapped app.state c).1.IsErr = false →
          out = OK ∧ out.IsOK = true)) ∧
    (app.cacheState = none →
      (∀ e, (env.ExecTx app.plugins tx true).runNil = .error e →
        app.CheckTx env txBytes = .error e) ∧
      (∀ res, (env.ExecTx app.plugins tx true).runNil = .ok res →
        ∃ out, app.CheckTx env txBytes = .ok (out, app) ∧ out.IsErr = res.IsErr ∧
          (res.IsErr = true → out = res.PrependLog "Error in CheckTx") ∧
          (res.IsErr = false → out = OK))) := by
  refine ⟨?_, ?_, ?_⟩
  · unfold Hubcoin.DeliverTx
    rw [if_neg hsize, hdec]
    simp only
    cases hres : ((env.ExecTx app.plugins tx false).runOn app.state).1.IsErr with
    | true =>
      simp only [if_true]
      refine ⟨?_, fun _ => rfl, fun h => by cases h⟩
      simpa [Result.IsErr, Result.PrependLog] using hres
    | false =>
      simp only [Bool.false_eq_true, if_false]
      refine ⟨hres, fun h => h.elim, fun _ => ⟨trivial, ?_⟩⟩
      simpa [Result.IsErr, Result.IsOK] using hres
  · intro c hc
    unfold Hubcoin.CheckTx
    rw [if_neg hsize, hdec]
    simp only
    rw [execOnCache_some env app tx c hc]
    simp only
    cases hres : ((env.ExecTx app.plugins tx true).runWrapped app.state c).1.IsErr with
    | true =>
      simp only [if_true]
      refine ⟨_, _, rfl, ?_, fun _ => rfl, fun h => by cases h⟩
      simpa [Result.IsErr, Result.PrependLog] using hres
    | false =>
      simp only [Bool.false_eq_true, if_false]
      exact ⟨_, _, rfl, rfl, fun h => h.elim, fun _ => ⟨rfl, rfl⟩⟩
  · intro hc
    constructor
    · intro e he
      unfold Hubcoin.CheckTx
      rw [if_neg hsize, hdec]
      simp only
      unfold Hubcoin.execOnCache
      rw [hc]
      simp only
      rw [he]
    · intro res hr
      unfold Hubcoin.CheckTx
      rw [if_neg hsize, hdec]
      simp only
      unfold Hubcoin.execOnCache
      rw [hc]
      simp only
      rw [hr]
      simp only
      have happ : ({ app with cacheState := none } : Hubcoin T) = app := by
        cases app
        simp only at hc
        subst hc
        rfl
      rw [happ]
      cases hres : res.IsErr with
      | true =>
        simp only [if_true]
        refine ⟨_, rfl, ?_, fun _ => rfl, fun h => by cases h⟩
        simpa [Result.IsErr, Result.PrependLog] using hres
      | false =>
        simp only [Bool.false_eq_true, if_false]
        exact ⟨_, rfl, rfl, fun h => h.elim, fun _ => rfl⟩

theorem C6_witness :
    ¬ ([0] : Bytes).length > maxTxSize ∧
    demoEnv.ReadBinaryBytes [0] = .ok [0] ∧
    ((demoEnv.ExecTx demoApp.plugins [0] false).runOn demoApp.state).1 = demoFailure ∧
    (demoApp.DeliverTx demoEnv [0]).1
      = { Code := CodeType_InternalError, Data := [], Log := "Error in DeliverTx;rejected" } ∧
    ∃ out app1, demoApp.CheckTx demoEnv [0] = .ok (out, app1) ∧
      out = { Code := CodeType_InternalError, Data := [], Log := "Error in CheckTx;rejected" } :=
  have h := C6_exec_outcome_surfaced demoEnv demoApp [0] [0] (by decide) rfl
  ⟨by decide, rfl, rfl, h.1.2.1 rfl,
    match h.2.1 _ rfl with
    | ⟨out, app1, hck, _, herr, _⟩ => ⟨out, app1, hck, herr rfl⟩⟩

/-! ## Routing of options and queries, and Commit -/

theorem splitKey_returns (key : String) :
    ∃ n rest, splitKey key = .ok (n, rest) ∧ ('/' ∉ key.data → n = key ∧ rest = "") := by
  by_cases h : '/' ∈ key.data
  · obtain ⟨pre, suf, hs, _, _⟩ := (splitKey_spec key).1 h
    exact ⟨pre, suf, hs, fun hn => absurd h hn⟩
  · exact ⟨key, "", (splitKey_spec key).2 h, fun _ => ⟨rfl, rfl⟩⟩

/-- C7. The function splitKey splits at the first slash: a key with a slash
gives a first part without slash and a second part such that first part,
slash, second part is the key; a key without slash gives the key and the
empty string. -/
theorem C7_splitKey_first_slash (key : String) :
    ('/' ∈ key.data →
      ∃ pre suf, splitKey key = .ok (pre, suf) ∧ '/' ∉ pre.data ∧
        pre ++ "/" ++ suf = key) ∧
    ('/' ∉ key.data → splitKey key = .ok (key, "")) :=
  splitKey_spec key

/-- C8. SetOption dispatch: the key always splits into a name n and a rest; a
key without slash is the name in full; when n is not the core namespace hub,
an unregistered n gives the text Invalid plugin name: n and the same driver,
and a registered n gives the text the SetOption of that plugin returns when
run on the committed state with the rest of the key and the value, the
committed state being the one that run leaves. -/
theorem C8_setOption_dispatch {T : Types} (env : Env T) (app : Hubcoin T) (key value : String) :
    ∃ n rest, splitKey key = .ok (n, rest) ∧
      ('/' ∉ key.data → n = key ∧ rest = "") ∧
      (n ≠ "hub" →
        (app.plugins.GetByName n = none →
          app.SetOption env key value = .ok ("Invalid plugin name: " ++ n, app)) ∧
        (∀ plugin, app.plugins.GetByName n = some plugin →
          app.SetOption env key value
            = .ok (((plugin.SetOption rest value).runOn app.state).1,
                   { app with state := ((plugin.SetOption rest value).runOn app.state).2 }))) := by
  obtain ⟨n, rest, hs, hno⟩ := splitKey_returns key
  refine ⟨n, rest, hs, hno, ?_⟩
  intro hn
  have hn1 : n ≠ PluginNameBase := hn
  constructor
  · intro hnone
    unfold Hubcoin.SetOption
    rw [hs]
    simp only
    rw [if_pos hn1, hnone]
  · intro plugin hsome
    unfold Hubcoin.SetOption
    rw [hs]
    simp only
    rw [if_pos hn1, hsome]

/-- C9, as stated, fails: for the path /account and the data 01 the store is
asked for the key hub/a/ followed by 01 under the path /key, which is not hub,
then /account/, then 01. -/
theorem C9_counterexample :
    (demoApp.Query demoEnv { Data := [1], Path := "/account", Height := 0, Prove := false }).Key
      = bytesOfString "hub/a/" ++ [1] ∧
    (demoApp.Query demoEnv { Data := [1], Path := "/account", Height := 0, Prove := false }).Key
      ≠ bytesOfString "hub" ++ bytesOfString "/account/" ++ [1] ∧
    (demoApp.Query demoEnv { Data := [1], Path := "/account", Height := 0, Prove := false }).Log
      = "/key" :=
  ⟨by decide, by decide, by decide⟩

/-- C9, amended. For a query with non-empty data: when the path is /account,
the store is asked, under the path /key, for the key made of the core
namespace hub, then /a/, then the data, and the answer of Query is made from
the answer of the store to that request; for any other path the store is
asked the request unchanged. -/
theorem C9_query_rewriting {T : Types} (env : Env T) (app : Hubcoin T)
    (reqQuery : RequestQuery) (hdata : reqQuery.Data ≠ []) :
    bytesOfString "hub/a/" = bytesOfString PluginNameBase ++ bytesOfString "/a/" ∧
    (reqQuery.Path = "/account" →
      ∀ resQuery err,
        env.QuerySync { Data := bytesOfString "hub/a/" ++ reqQuery.Data, Path := "/key",
                        Height := reqQuery.Height, Prove := reqQuery.Prove } = (resQuery, err) →
        app.Query env reqQuery =
          match err with
          | some e => { resQuery with Log := "Failed to query MerkleEyes: " ++ e,
                                      Code := CodeType_InternalError }
          | none => resQuery) ∧
    (reqQuery.Path ≠ "/account" →
      ∀ resQuery err, env.QuerySync reqQuery = (resQuery, err) →
        app.Query env reqQuery =
          match err with
          | some e => { resQuery with Log := "Failed to query MerkleEyes: " ++ e,
                                      Code := CodeType_InternalError }
          | none => resQuery) := by
  have hlen : ¬ reqQuery.Data.length = 0 := by
    intro h
    exact hdata (List.length_eq_zero.mp h)
  refine ⟨by decide, ?_, ?_⟩
  · intro hpath resQuery err hq
    unfold Hubcoin.Query
    rw [if_neg hlen]
    simp only [hpath, if_true]
    rw [hq]
    cases err <;> rfl
  · intro hpath resQuery err hq
    unfold Hubcoin.Query
    rw [if_neg hlen]
    simp only [if_neg hpath]
    rw [hq]
    cases err <;> rfl

theorem C9_witness :
    ({ Data := [1], Path := "/account", Height := 0, Prove := false } : RequestQuery).Data ≠ [] ∧
    demoApp.Query demoEnv { Data := [1], Path := "/account", Height := 0, Prove := false }
      = { ResponseQuery.zero with Key := bytesOfString "hub/a/" ++ [1], Log := "/key" } :=
  ⟨by decide,
    (C9_query_rewriting demoEnv demoApp
      { Data := [1], Path := "/account", Height := 0, Prove := false } (by decide)).2.1
      rfl _ none rfl⟩

/-- C10. Commit is fatal exactly on store failure: when the commit of the
committed state returns an error result, Commit panics; otherwise Commit
returns the result of the store unchanged; a result that Commit returns is
never an error result. -/
theorem C10_commit_fatal_on_store_failure {T : Types} (env : Env T) (app : Hubcoin T) :
    ((env.StateCommit app.state).1.IsErr = true →
      app.Commit env
        = .error (.sanity ("Error getting hash: "
            ++ env.ResultError (env.StateCommit app.state).1))) ∧
    ((env.StateCommit app.state).1.IsErr = false →
      ∃ app1, app.Commit env = .ok ((env.StateCommit app.state).1, app1)) ∧
    (∀ res app1, app.Commit env = .ok (res, app1) → res.IsErr = false) := by
  refine ⟨?_, ?_, ?_⟩
  · intro h
    unfold Hubcoin.Commit
    simp only
    rw [if_pos h]
  · intro h
    unfold Hubcoin.Commit
    simp only
    rw [h]
    exact ⟨_, rfl⟩
  · intro res app1 h
    exact (Commit_ok env app app1 res h).2.1

/-! ## Evaluations on the concrete instance -/

theorem splitKey_eval :
    splitKey "counter/a/b" = .ok ("counter", "a/b") ∧
    splitKey "/x" = .ok ("", "x") ∧
    splitKey "hub" = .ok ("hub", "") :=
  ⟨rfl, rfl, rfl⟩

theorem SetOption_eval :
    demoApp.SetOption demoEnv "counter/a/b" "v"
      = .ok ("a/b", { demoApp with
          state := { kv := [(bytesOfString "a/b", bytesOfString "v"), ([9], [9])] } }) ∧
    demoApp.SetOption demoEnv "nobody" "v" = .ok ("Invalid plugin name: nobody", demoApp) ∧
    demoApp.SetOption demoEnv "hub/other" "v" = .ok ("Unrecognized option key other", demoApp) :=
  ⟨rfl, rfl, rfl⟩

theorem Commit_eval :
    demoApp.Commit demoEnv
      = .ok ({ Code := CodeType_OK, Data := [42], Log := "" },
             { demoApp with cacheState := some { kv := [] } }) ∧
    demoApp.Commit { demoEnv with StateCommit := fun s => (demoFailure, s) }
      = .error (.sanity "Error getting hash: rejected") :=
  ⟨rfl, rfl⟩

end HubApp
